import Mathlib

/-!
Verification of the device-usage analytics dashboard (`app.py`).

The development shallowly embeds the data-fetch-and-aggregation pipeline:
`fetch_data` (HTTP call, CSV parsing, per-column type coercion), the
`calculate_app_metrics` aggregator (groupby package, reach = nunique of
hardware_id, sum and mean of total_time_in_foreground, unit conversion,
rounding), the Load Data button handler over session state, the dashboard
render (filters, KPIs, quick insights), and the CSV export of the metric
table.  Floating-point cells are modelled as rationals extended with
infinities and NaN (`PFloat`); a value that fails numeric coercion is
`none`, matching pandas NaN propagation through skipna aggregations.
-/

/-- Round a rational to the nearest integer, ties to even
(the rounding used by numpy/pandas `round`). -/
def roundHalfEven (q : ℚ) : ℤ :=
  let f := ⌊q⌋
  if q - f < 1/2 then f
  else if 1/2 < q - f then f + 1
  else if f % 2 = 0 then f else f + 1

/-- Round a rational to 2 decimal places, ties to even
(model of pandas `DataFrame.round(2)` on one cell). -/
def round2 (q : ℚ) : ℚ := (roundHalfEven (q * 100) : ℚ) / 100

/-- Extended value domain of a pandas float64 cell: a finite rational,
plus infinity, minus infinity, or NaN. -/
inductive PFloat where
  | fin (q : ℚ)
  | inf
  | ninf
  | nan
  deriving DecidableEq

/-- Division of a float sum by an integer count, with numpy semantics at
a zero divisor: positive/0 = inf, negative/0 = -inf, 0/0 = NaN. -/
def pdivByNat (x : ℚ) (n : ℕ) : PFloat :=
  if n = 0 then (if x = 0 then PFloat.nan else if 0 < x then PFloat.inf else PFloat.ninf)
  else PFloat.fin (x / n)

/-- Dividing a float cell by the seconds-per-hour constant 3600
(infinities and NaN are preserved, as in numpy). -/
def PFloat.divBy3600 : PFloat → PFloat
  | .fin q => .fin (q / 3600)
  | .inf => .inf
  | .ninf => .ninf
  | .nan => .nan

/-- Rounding a float cell to 2 decimals (numpy round keeps inf and NaN). -/
def PFloat.round2P : PFloat → PFloat
  | .fin q => .fin (round2 q)
  | .inf => .inf
  | .ninf => .ninf
  | .nan => .nan

/-- Whether a float cell is an ordinary finite number. -/
def PFloat.isFinite : PFloat → Bool
  | .fin _ => true
  | _ => false

/-- The columns of the session dataframe that `calculate_app_metrics`
reads: the grouping key `package`, the `hardware_id` column (NA-able, as
pandas object columns admit NaN), and the coerced numeric column
`total_time_in_foreground` (`none` is NaN). -/
structure AggRow where
  package : String
  hardware_id : Option String
  total_time_in_foreground : Option ℚ
  deriving DecidableEq

/-- One row of the derived AppMetric table
(`package, reach, total_time, avg_time_per_session, avg_time_per_device`). -/
structure AppMetric where
  package : String
  reach : ℕ
  total_time : ℚ
  avg_time_per_session : PFloat
  avg_time_per_device : PFloat
  deriving DecidableEq

/-- The rows of the group with the given `package` key
(`df.groupby('package')`, one group). -/
def groupRows (df : List AggRow) (p : String) : List AggRow :=
  df.filter (fun r => r.package == p)

/-- The non-NA `hardware_id` values of a group (pandas `nunique` drops NA). -/
def hwList (g : List AggRow) : List String :=
  g.filterMap (fun r => r.hardware_id)

/-- The non-NaN `total_time_in_foreground` values of a group
(pandas `sum` and `mean` skip NaN). -/
def timesList (g : List AggRow) : List ℚ :=
  g.filterMap (fun r => r.total_time_in_foreground)

/-- Sum of a list of rationals. -/
def listSum (l : List ℚ) : ℚ := l.foldr (· + ·) 0

/-- The AppMetric row computed for one package group: reach is the
distinct count of non-NA hardware ids, total and mean of the foreground
time in seconds, `avg_time_per_device = total / reach` (numpy division),
then all three times divided by 3600 and rounded to 2 decimals. -/
def appMetricFor (df : List AggRow) (p : String) : AppMetric :=
  let g := groupRows df p
  let reach := (hwList g).dedup.length
  let total := listSum (timesList g)
  let cnt := (timesList g).length
  { package := p
    reach := reach
    total_time := round2 (total / 3600)
    avg_time_per_session :=
      PFloat.round2P (PFloat.divBy3600
        (if cnt = 0 then PFloat.nan else PFloat.fin (total / cnt)))
    avg_time_per_device :=
      PFloat.round2P (PFloat.divBy3600 (pdivByNat total reach)) }

/-- Boolean lexicographic order on character lists, used to model the
sorted group keys produced by pandas `groupby(sort=True)`. -/
def lexLe : List Char → List Char → Bool
  | [], _ => true
  | _ :: _, [] => false
  | a :: as, b :: bs => if a < b then true else if b < a then false else lexLe as bs

/-- `calculate_app_metrics`: group by package (keys sorted ascending as
groupby does), compute the per-group metrics, and sort the resulting
table by `reach` descending (`sort_values('reach', ascending=False)`). -/
def calculate_app_metrics (df : List AggRow) : List AppMetric :=
  let pkgs := List.insertionSort (fun a b : String => lexLe a.data b.data = true)
    ((df.map (fun r => r.package)).dedup)
  List.insertionSort (fun a b : AppMetric => b.reach ≤ a.reach)
    (pkgs.map (appMetricFor df))

/-! ### Character-level utilities for delimited text -/

/-- The character of a single decimal digit (codepoint 48 + digit). -/
def digitChar (d : ℕ) : Char := Char.ofNat (48 + d)

/-- The decimal digit denoted by a character, if any. -/
def charDigit (c : Char) : Option ℕ :=
  if 48 ≤ c.toNat ∧ c.toNat ≤ 57 then some (c.toNat - 48) else none

/-- Big-endian decimal digit characters of a natural number (empty for 0). -/
def natChars (n : ℕ) : List Char :=
  ((Nat.digits 10 n).reverse).map digitChar

/-- Decimal rendering of a natural number ("0" included). -/
def natCharsNZ (n : ℕ) : List Char :=
  if n = 0 then ['0'] else natChars n

/-- Read a character list as a list of decimal digits. -/
def readDigits : List Char → Option (List ℕ)
  | [] => some []
  | c :: cs => do
    let d ← charDigit c
    let ds ← readDigits cs
    some (d :: ds)

/-- Parse a nonempty all-digit character list as a natural number. -/
def parseNatChars (l : List Char) : Option ℕ :=
  match l with
  | [] => none
  | _ => (readDigits l).map (fun ds => Nat.ofDigits 10 ds.reverse)

/-- Split a character list at every occurrence of a separator
(always returns at least one, possibly empty, field). -/
def splitSep (sep : Char) : List Char → List (List Char)
  | [] => [[]]
  | c :: rest =>
    if c = sep then [] :: splitSep sep rest
    else
      match splitSep sep rest with
      | [] => [[c]]
      | f :: fs => (c :: f) :: fs

/-- Join fields with a separator (inverse of `splitSep` on separator-free
fields). -/
def joinSep (sep : Char) : List (List Char) → List Char
  | [] => []
  | [f] => f
  | f :: g :: fs => f ++ sep :: joinSep sep (g :: fs)

/-- Index of the first occurrence of a field in a list of fields. -/
def findIdxOf (x : List Char) : List (List Char) → Option ℕ
  | [] => none
  | y :: ys => if y = x then some 0 else (findIdxOf x ys).map (· + 1)

/-- Cell of a raw row at a column index; absent trailing cells read as
empty (pandas pads short rows with NaN). -/
def cellAt (r : List (List Char)) (i : ℕ) : List Char := r.getD i []

/-- Whether the first list is an initial segment of the second. -/
def leadsL : List Char → List Char → Bool
  | [], _ => true
  | _ :: _, [] => false
  | a :: as, b :: bs => a == b && leadsL as bs

/-- Whether the first list occurs as a contiguous segment of the second
(model of pandas `str.contains` after lowercasing). -/
def containsSub (pat : List Char) : List Char → Bool
  | [] => pat.isEmpty
  | c :: rest => leadsL pat (c :: rest) || containsSub pat rest

/-! ### Numeric and timestamp coercion (`pd.to_numeric` / `pd.to_datetime`
with `errors='coerce'`) -/

/-- Split a numeral at the decimal point: integer-part characters and
the remainder starting at the point. -/
def splitNumParts (l : List Char) : List Char × List Char :=
  (l.takeWhile (fun c => c ≠ '.'), l.dropWhile (fun c => c ≠ '.'))

/-- Parse an unsigned decimal numeral, with an optional fractional part. -/
def parseUnsigned (l : List Char) : Option ℚ :=
  match (splitNumParts l).2 with
  | [] => (parseNatChars (splitNumParts l).1).map (fun n => (n : ℚ))
  | _ :: fp =>
    match parseNatChars (splitNumParts l).1, fp with
    | some a, [] => some ((a : ℚ))
    | some a, _ => (parseNatChars fp).map
        (fun b => (a : ℚ) + (b : ℚ) / (10 : ℚ) ^ fp.length)
    | none, _ => none

/-- Parse a signed decimal numeral; anything else (including the empty
cell) coerces to missing, as `pd.to_numeric(errors='coerce')` does. -/
def parseNum (l : List Char) : Option ℚ :=
  match l with
  | '-' :: rest => (parseUnsigned rest).map (fun q => -q)
  | '+' :: rest => parseUnsigned rest
  | _ => parseUnsigned l

/-- Parse a `YYYY-MM-DD` timestamp with an optional `HH:MM:SS` part into
an order-preserving encoding; unparsable cells coerce to missing
(`pd.to_datetime(errors='coerce')`). -/
def parseTimestamp (l : List Char) : Option ℕ :=
  let dpart := l.takeWhile (fun c => c ≠ ' ')
  let tpart := (l.dropWhile (fun c => c ≠ ' ')).drop 1
  match splitSep '-' dpart with
  | [y, mo, d] => do
    let yn ← parseNatChars y
    let mn ← parseNatChars mo
    let dn ← parseNatChars d
    if 1 ≤ mn ∧ mn ≤ 12 ∧ 1 ≤ dn ∧ dn ≤ 31 then
      let base := ((yn * 12 + mn) * 31 + dn) * 86400
      match tpart with
      | [] => some base
      | _ =>
        match splitSep ':' tpart with
        | [hh, mm, ss] => do
          let h ← parseNatChars hh
          let mi ← parseNatChars mm
          let s ← parseNatChars ss
          if h < 24 ∧ mi < 60 ∧ s < 60 then some (base + h * 3600 + mi * 60 + s)
          else none
        | _ => none
    else none
  | _ => none

/-! ### The Query Client: `fetch_data` -/

/-- One fully coerced row of the session dataframe: the eight
identifier/descriptor columns are coerced to strings unconditionally
(`astype(str)`, which renders a NaN cell as the literal string "nan"),
the five timestamp columns and the three duration columns coerce
unparsable cells to missing. -/
structure UsageRecord where
  partner : String
  token : String
  package : String
  last_time_used : Option ℕ
  last_time_foreground_service_used : Option ℕ
  first_time_stamp : Option ℕ
  last_time_stamp : Option ℕ
  last_time_visible : Option ℕ
  total_time_foreground_service_used : Option ℚ
  total_time_in_foreground : Option ℚ
  total_time_visible : Option ℚ
  hardware_id : String
  model : String
  os : String
  product : String
  brand : String
  deriving DecidableEq

/-- A parsed delimited response body: header fields and raw data rows. -/
structure RawTable where
  header : List (List Char)
  rows : List (List (List Char))
  deriving DecidableEq

/-- Parse a response body as delimited text with a header row
(`pd.read_csv`): blank lines are skipped, a data row with more fields
than the header is a parse error, shorter rows are padded. -/
def parseCSVChars (l : List Char) : Option RawTable :=
  match splitSep '\n' l with
  | [] => none
  | hline :: rest =>
    let hdr := splitSep ',' hline
    let rows := (rest.filter (fun x => !x.isEmpty)).map (splitSep ',')
    if rows.all (fun r => r.length ≤ hdr.length) then some ⟨hdr, rows⟩ else none

/-- The column positions of the sixteen selected columns in a response
header. -/
structure ColIdx where
  iPartner : ℕ
  iToken : ℕ
  iPackage : ℕ
  iLastTimeUsed : ℕ
  iLastTimeFgSvcUsed : ℕ
  iFirstTimeStamp : ℕ
  iLastTimeStamp : ℕ
  iLastTimeVisible : ℕ
  iTotalTimeFgSvcUsed : ℕ
  iTotalTimeInFg : ℕ
  iTotalTimeVisible : ℕ
  iHardwareId : ℕ
  iModel : ℕ
  iOs : ℕ
  iProduct : ℕ
  iBrand : ℕ
  deriving DecidableEq

/-- Locate every required column in the header; a missing column makes
the per-column coercion loop raise (KeyError), which `fetch_data`
catches. -/
def colIdxAll (hdr : List (List Char)) : Option ColIdx := do
  let a1 ← findIdxOf "partner".data hdr
  let a2 ← findIdxOf "token".data hdr
  let a3 ← findIdxOf "package".data hdr
  let a4 ← findIdxOf "last_time_used".data hdr
  let a5 ← findIdxOf "last_time_foreground_service_used".data hdr
  let a6 ← findIdxOf "first_time_stamp".data hdr
  let a7 ← findIdxOf "last_time_stamp".data hdr
  let a8 ← findIdxOf "last_time_visible".data hdr
  let a9 ← findIdxOf "total_time_foreground_service_used".data hdr
  let a10 ← findIdxOf "total_time_in_foreground".data hdr
  let a11 ← findIdxOf "total_time_visible".data hdr
  let a12 ← findIdxOf "hardware_id".data hdr
  let a13 ← findIdxOf "model".data hdr
  let a14 ← findIdxOf "os".data hdr
  let a15 ← findIdxOf "product".data hdr
  let a16 ← findIdxOf "brand".data hdr
  some ⟨a1, a2, a3, a4, a5, a6, a7, a8, a9, a10, a11, a12, a13, a14, a15, a16⟩

/-- String coercion of a raw cell: `astype(str)` turns the NaN read from
an empty cell into the literal string "nan". -/
def coerceCellStr (c : List Char) : String :=
  if c.isEmpty then "nan" else String.mk c

/-- Coerce one raw row into a typed `UsageRecord`. -/
def buildRecord (ix : ColIdx) (r : List (List Char)) : UsageRecord :=
  { partner := coerceCellStr (cellAt r ix.iPartner)
    token := coerceCellStr (cellAt r ix.iToken)
    package := coerceCellStr (cellAt r ix.iPackage)
    last_time_used := parseTimestamp (cellAt r ix.iLastTimeUsed)
    last_time_foreground_service_used := parseTimestamp (cellAt r ix.iLastTimeFgSvcUsed)
    first_time_stamp := parseTimestamp (cellAt r ix.iFirstTimeStamp)
    last_time_stamp := parseTimestamp (cellAt r ix.iLastTimeStamp)
    last_time_visible := parseTimestamp (cellAt r ix.iLastTimeVisible)
    total_time_foreground_service_used := parseNum (cellAt r ix.iTotalTimeFgSvcUsed)
    total_time_in_foreground := parseNum (cellAt r ix.iTotalTimeInFg)
    total_time_visible := parseNum (cellAt r ix.iTotalTimeVisible)
    hardware_id := coerceCellStr (cellAt r ix.iHardwareId)
    model := coerceCellStr (cellAt r ix.iModel)
    os := coerceCellStr (cellAt r ix.iOs)
    product := coerceCellStr (cellAt r ix.iProduct)
    brand := coerceCellStr (cellAt r ix.iBrand) }

/-- Coerce a whole raw table, failing when a required column is absent. -/
def coerceTable (t : RawTable) : Option (List UsageRecord) :=
  match colIdxAll t.header with
  | none => none
  | some ix => some (t.rows.map (buildRecord ix))

/-- `pd.read_csv` plus the three per-column coercion loops of
`fetch_data`. -/
def parseAndCoerce (text : String) : Option (List UsageRecord) := do
  let t ← parseCSVChars text.data
  coerceTable t

/-- An HTTP response as seen by the client. -/
structure HttpResponse where
  status : ℕ
  headers : List (String × String)
  text : String
  deriving DecidableEq

/-- Outcome of `requests.post`: either the call itself raised, or a
response came back. -/
inductive HttpOutcome where
  | transportError (msg : String)
  | ok (resp : HttpResponse)
  deriving DecidableEq

/-- Messages the script writes to the page: debug diagnostics, error
reports (`st.error`), and success reports (`st.success`). -/
inductive UiEvent where
  | debugStatus (code : ℕ)
  | debugHeaders (hs : List (String × String))
  | debugPreview (s : String)
  | errorMsg (msg : String)
  | successMsg (msg : String)
  deriving DecidableEq

/-- The debug block of `fetch_data`: when the debug flag is set it writes
the response status, headers, and a 500-character text preview. -/
def debugEvents (debug : Bool) (r : HttpResponse) : List UiEvent :=
  if debug then
    [UiEvent.debugStatus r.status, UiEvent.debugHeaders r.headers,
      UiEvent.debugPreview (r.text.take 500)]
  else []

/-- What `fetch_data` does with a received response after the debug
block: `raise_for_status` (4xx/5xx raises, caught as an error), then
parse and coerce (any exception caught as an error). -/
def fetchResult (r : HttpResponse) : List UiEvent × Option (List UsageRecord) :=
  if 400 ≤ r.status ∧ r.status < 600 then ([UiEvent.errorMsg "Error: HTTPError"], none)
  else
    match parseAndCoerce r.text with
    | some df => ([], some df)
    | none => ([UiEvent.errorMsg "Error: ParseError"], none)

/-- `fetch_data`: a transport failure is caught and reported before any
debug output; otherwise the debug diagnostics are written and the
response is checked and parsed.  The function reports errors and returns
`none` instead of raising. -/
def fetch_data (debug : Bool) (outcome : HttpOutcome) :
    List UiEvent × Option (List UsageRecord) :=
  match outcome with
  | HttpOutcome.transportError msg => ([UiEvent.errorMsg ("Error: " ++ msg)], none)
  | HttpOutcome.ok r =>
    (debugEvents debug r ++ (fetchResult r).1, (fetchResult r).2)

/-- The three failure conditions of a fetch: transport failure,
non-success HTTP status, or a body that fails to parse or coerce. -/
def fetchFails (o : HttpOutcome) : Prop :=
  match o with
  | HttpOutcome.transportError _ => True
  | HttpOutcome.ok r => (400 ≤ r.status ∧ r.status < 600) ∨ parseAndCoerce r.text = none

/-- The session state the script keeps across reruns: the loaded flag,
the held dataframe, and the debug-mode checkbox. -/
structure SessionState where
  data_loaded : Bool
  df : Option (List UsageRecord)
  debug_mode : Bool
  deriving DecidableEq

/-- The Load Data button handler: a non-empty fetched table replaces the
held one and sets the loaded flag; a failed fetch or an empty table
reports "Failed to load data" and clears only the flag, leaving the held
table as it was. -/
def loadData (st : SessionState) (o : HttpOutcome) : SessionState × List UiEvent :=
  let fr := fetch_data st.debug_mode o
  match fr.2 with
  | some df =>
    if df.isEmpty then
      ({ st with data_loaded := false }, fr.1 ++ [UiEvent.errorMsg "Failed to load data"])
    else
      ({ st with df := some df, data_loaded := true },
        fr.1 ++ [UiEvent.successMsg "Successfully loaded records"])
  | none =>
    ({ st with data_loaded := false }, fr.1 ++ [UiEvent.errorMsg "Failed to load data"])

/-! ### The dashboard body (filters, KPIs, metrics table, quick insights) -/

/-- Projection of a coerced record onto the columns the aggregator reads
(string columns carry no NA after `astype(str)`, hence `some`). -/
def toAggRow (u : UsageRecord) : AggRow :=
  { package := u.package
    hardware_id := some u.hardware_id
    total_time_in_foreground := u.total_time_in_foreground }

/-- The sidebar filter step:
`df[df['partner'].isin(selected) & df['brand'].isin(selected)]`. -/
def filterRows (df : List UsageRecord) (selP selB : List String) : List UsageRecord :=
  df.filter (fun r => selP.contains r.partner && selB.contains r.brand)

/-- The four sortable metric columns of the detailed table. -/
inductive MetricKey where
  | reachKey
  | totalTimeKey
  | avgSessionKey
  | avgDeviceKey
  deriving DecidableEq

/-- The sort key of a metric row as a float cell. -/
def keyPF : MetricKey → AppMetric → PFloat
  | MetricKey.reachKey, m => PFloat.fin m.reach
  | MetricKey.totalTimeKey, m => PFloat.fin m.total_time
  | MetricKey.avgSessionKey, m => m.avg_time_per_session
  | MetricKey.avgDeviceKey, m => m.avg_time_per_device

/-- Descending comparison on float cells as `sort_values(ascending=False)`
orders them: infinity first, then finite values descending, then minus
infinity, and NaN last. -/
def PFloat.descLe : PFloat → PFloat → Bool
  | PFloat.nan, PFloat.nan => true
  | PFloat.nan, _ => false
  | _, PFloat.nan => true
  | PFloat.inf, _ => true
  | _, PFloat.inf => false
  | PFloat.ninf, PFloat.ninf => true
  | PFloat.ninf, PFloat.fin _ => false
  | PFloat.fin _, PFloat.ninf => true
  | PFloat.fin a, PFloat.fin b => b ≤ a

/-- Lowercased characters of a string (`str.contains(case=False)`). -/
def lowerChars (s : String) : List Char :=
  s.data.map Char.toLower

/-- Outcome of handing the search term to Python's regex engine, which
`str.contains` does with `regex=True`: compilation either raises
`re.error` (e.g. on the pattern "(") or yields a match predicate applied
to each package name (`case=False` folded into the predicate).  The
engine is an external collaborator, so — as with `HttpOutcome` for the
transport — the embedding takes its outcome as an input. -/
inductive RegexOutcome where
  | reError (msg : String)
  | matcher (f : String → Bool)

/-- Whether the search term compiled. -/
def RegexOutcome.compiles : RegexOutcome → Bool
  | RegexOutcome.reError _ => false
  | RegexOutcome.matcher _ => true

/-- The predicate a metacharacter-free search term compiles to:
case-insensitive substring containment. -/
def literalMatcher (search : String) : RegexOutcome :=
  RegexOutcome.matcher (fun s => containsSub (lowerChars search) (lowerChars s))

/-- The searched, re-sorted, truncated view of the metric table shown in
the detailed-metrics widget.  An empty search box skips `str.contains`
entirely (`if search_term:`); a nonempty term reaches the regex engine,
whose `re.error` propagates out of the script unhandled. -/
def displayedMetrics (metrics : List AppMetric) (search : String) (rx : RegexOutcome)
    (key : MetricKey) : Except String (List AppMetric) :=
  if search = "" then
    Except.ok ((List.insertionSort
      (fun a b => PFloat.descLe (keyPF key a) (keyPF key b) = true) metrics).take 20)
  else
    match rx with
    | RegexOutcome.reError msg => Except.error ("re.error: " ++ msg)
    | RegexOutcome.matcher f =>
      Except.ok ((List.insertionSort
        (fun a b => PFloat.descLe (keyPF key a) (keyPF key b) = true)
        (metrics.filter (fun m => f m.package))).take 20)

/-- Whether a record counts as active at the 7-day cutoff; a missing
timestamp compares false, as NaT does. -/
def activeP (cutoff : ℕ) (r : UsageRecord) : Bool :=
  match r.last_time_used with
  | some t => cutoff ≤ t
  | none => false

/-- Mean of a float column (NaN on an all-missing or empty column). -/
def meanP (l : List ℚ) : PFloat :=
  if l.length = 0 then PFloat.nan else PFloat.fin (listSum l / l.length)

/-- Everything the dashboard body derives from the held table: the four
KPI scalars, the ranked metric table, the searched/sorted table view,
and the two Quick Insights rows. -/
structure DashboardView where
  totalDevices : ℕ
  totalApps : ℕ
  avgUsageHours : PFloat
  activeDevices : ℕ
  metricsTable : List AppMetric
  displayed : List AppMetric
  topApp : AppMetric
  mostEngaged : AppMetric
  deriving DecidableEq

/-- One pass of the dashboard body over the held table: apply the
partner/brand filters, aggregate, render the KPIs and the searched table
view, and read the Quick Insights rows with `iloc[0]`.  Two steps can
raise: the regex-based search filter (`str.contains`, reached before the
insights) and the `iloc[0]` first-row access when the aggregated table
is empty. -/
def renderDashboard (cutoff : ℕ) (df : List UsageRecord) (selP selB : List String)
    (search : String) (rx : RegexOutcome) (key : MetricKey) :
    Except String DashboardView :=
  let filtered := filterRows df selP selB
  let metrics := calculate_app_metrics (filtered.map toAggRow)
  match displayedMetrics metrics search rx key with
  | Except.error e => Except.error e
  | Except.ok displayed =>
    match metrics with
    | [] => Except.error "IndexError: single positional indexer is out-of-bounds"
    | m0 :: rest =>
      Except.ok
        { totalDevices := (filtered.map (fun r => r.hardware_id)).dedup.length
          totalApps := (filtered.map (fun r => r.package)).dedup.length
          avgUsageHours :=
            PFloat.divBy3600 (meanP (filtered.filterMap (fun r => r.total_time_in_foreground)))
          activeDevices :=
            ((filtered.filter (activeP cutoff)).map (fun r => r.hardware_id)).dedup.length
          metricsTable := m0 :: rest
          displayed := displayed
          topApp := m0
          mostEngaged :=
            (List.insertionSort
              (fun a b => PFloat.descLe a.avg_time_per_device b.avg_time_per_device = true)
              (m0 :: rest)).headD m0 }

/-! ### CSV export of the metric table (`app_metrics.to_csv(index=False)`)
and its re-parse -/

/-- Fractional digits of a 2-decimal value as float64 repr prints them:
one or two digits with no trailing zero beyond the first. -/
def fracChars (fp : ℕ) : List Char :=
  if fp = 0 then ['0']
  else if fp % 10 = 0 then [digitChar (fp / 10)]
  else [digitChar (fp / 10), digitChar (fp % 10)]

/-- Decimal rendering of a 2-decimal rational as float64 repr prints it:
integer part, a dot, and the fractional digits. -/
def writeQ2 (q : ℚ) : List Char :=
  let m : ℕ := (q * 100).num.natAbs
  (if q < 0 then ['-'] else []) ++ natCharsNZ (m / 100) ++ '.' :: fracChars (m % 100)

/-- Rendering of a float cell in `to_csv`: NaN prints as an empty field,
infinities as "inf"/"-inf". -/
def writePF : PFloat → List Char
  | PFloat.fin q => writeQ2 q
  | PFloat.inf => "inf".data
  | PFloat.ninf => "-inf".data
  | PFloat.nan => []

/-- The header line of the exported metrics file. -/
def csvMetricsHeader : List Char :=
  "package,reach,total_time,avg_time_per_session,avg_time_per_device".data

/-- The five cells of one exported row of the metric table. -/
def metricFields (m : AppMetric) : List (List Char) :=
  [m.package.data, natCharsNZ m.reach, writeQ2 m.total_time,
    writePF m.avg_time_per_session, writePF m.avg_time_per_device]

/-- One exported row of the metric table. -/
def writeMetricRow (m : AppMetric) : List Char :=
  joinSep ',' (metricFields m)

/-- The full export: header and rows joined by newlines with a trailing
newline, as `to_csv(index=False)` produces. -/
def toCsv (ms : List AppMetric) : String :=
  String.mk (joinSep '\n' (csvMetricsHeader :: ms.map writeMetricRow) ++ ['\n'])

/-- Reading a float field back: empty is NaN, "inf"/"-inf" are the
infinities, otherwise a decimal numeral (anything else would be NaN). -/
def parsePF (c : List Char) : PFloat :=
  if c = [] then PFloat.nan
  else if c = "inf".data then PFloat.inf
  else if c = "-inf".data then PFloat.ninf
  else
    match parseNum c with
    | some q => PFloat.fin q
    | none => PFloat.nan

/-- Reading one data row of the exported file back into a metric row. -/
def parseMetricRow (c : List (List Char)) : Option AppMetric :=
  match c with
  | [pk, rch, tt, ats, atd] => do
    let r ← parseNatChars rch
    let t ← parseNum tt
    some ⟨String.mk pk, r, t, parsePF ats, parsePF atd⟩
  | _ => none

/-- Reading every data row back. -/
def parseMetricRows : List (List Char) → Option (List AppMetric)
  | [] => some []
  | r :: rs => do
    let m ← parseMetricRow (splitSep ',' r)
    let ms ← parseMetricRows rs
    some (m :: ms)

/-- Re-parse an exported metrics file: strip the trailing newline, check
the header, and read the rows. -/
def parseMetricsCsv (s : String) : Option (List AppMetric) :=
  let chars := if s.data.getLast? = some '\n' then s.data.dropLast else s.data
  match splitSep '\n' chars with
  | [] => none
  | h :: rows =>
    if h = csvMetricsHeader then parseMetricRows rows else none

/-- A metric row the export model covers exactly: the package name is
free of the separator characters (pandas would quote such a field) and
every time value carries at most 2 decimals, as `round(2)` guarantees. -/
def wellFormedPF : PFloat → Bool
  | PFloat.fin q => (q * 100).den == 1
  | _ => true

/-- See `wellFormedPF`. -/
def wellFormedMetric (m : AppMetric) : Bool :=
  m.package.data.all (fun c => c ≠ ',' && c ≠ '\n') &&
    ((m.total_time * 100).den == 1) &&
    wellFormedPF m.avg_time_per_session && wellFormedPF m.avg_time_per_device

/-! ### Concrete tables used to instantiate the claims -/

/-- The two-row example table of the spec:
rows (package "A", device "d1", 3600 s) and (package "A", device "d2", 7200 s). -/
def dfEx : List AggRow :=
  [⟨"A", some "d1", some 3600⟩, ⟨"A", some "d2", some 7200⟩]

/-- A one-package table whose only row has a missing hardware id. -/
def dfC2 : List AggRow := [⟨"A", none, some 3600⟩]

/-- A concrete previously loaded record (used to instantiate session
states and tables in the witnesses below). -/
def recEx : UsageRecord :=
  ⟨"P", "T", "A", some 1, none, none, none, none, none, some 3600, none,
    "D1", "M", "android", "PR", "B"⟩

/-- A session state that already holds a loaded table. -/
def stHeld : SessionState := ⟨true, some [recEx], false⟩

/-- The header line the backing store returns for the selected columns. -/
def csvHeaderStr : String :=
  "partner,token,package,last_time_used,last_time_foreground_service_used,first_time_stamp,last_time_stamp,last_time_visible,total_time_foreground_service_used,total_time_in_foreground,total_time_visible,hardware_id,model,os,product,brand"

/-- A successful response whose body holds the header and no data rows. -/
def respEmptyTable : HttpResponse := ⟨200, [], csvHeaderStr⟩

/-- A second record with a different partner, same package, different
device. -/
def recEx2 : UsageRecord :=
  ⟨"P2", "T", "A", some 1, none, none, none, none, none, some 7200, none,
    "D2", "M", "android", "PR", "B"⟩

/-- A two-partner table for the filter-monotonicity witness. -/
def dfC6 : List UsageRecord := [recEx, recEx2]

/-- The metric row of package "A" after filtering `dfC6` to partner "P". -/
def mC6 : AppMetric := ⟨"A", 1, 1, PFloat.fin 1, PFloat.fin 1⟩

/-- A 200 response whose single data row has a malformed
`total_time_in_foreground` cell ("abc") and a valid device id. -/
def respC5 : HttpResponse :=
  ⟨200, [], csvHeaderStr ++ "\n" ++ "P,T,A,,,,,,,abc,,D1,M,android,PR,B" ++ "\n"⟩

/-- The coerced row of `respC5`: every duration and timestamp missing,
strings kept. -/
def recC5 : UsageRecord :=
  ⟨"P", "T", "A", none, none, none, none, none, none, none, none,
    "D1", "M", "android", "PR", "B"⟩

/-- The table `respC5` coerces to. -/
def dfC5 : List UsageRecord := [recC5]

/-- The raw parse of `respC5`. -/
def tC5 : RawTable :=
  ⟨splitSep ',' csvHeaderStr.data,
    [splitSep ',' "P,T,A,,,,,,,abc,,D1,M,android,PR,B".data]⟩

/-- A concrete exported table: one ordinary row and one row with zero
reach, a NaN mean, and an infinite per-device average. -/
def msC7 : List AppMetric :=
  [⟨"com.app.alpha", 2, 3, PFloat.fin (3 / 2), PFloat.fin (3 / 2)⟩,
    ⟨"com.app.beta", 0, 0, PFloat.nan, PFloat.inf⟩]

theorem mem_calculate_app_metrics (df : List AggRow) (p : String)
    (hp : p ∈ df.map (fun r => r.package)) :
    appMetricFor df p ∈ calculate_app_metrics df := by
  unfold calculate_app_metrics
  rw [(List.perm_insertionSort _ _).mem_iff]
  exact List.mem_map_of_mem _
    ((List.perm_insertionSort _ _).mem_iff.mpr (List.mem_dedup.mpr hp))

theorem calculate_app_metrics_sound (df : List AggRow) (m : AppMetric)
    (hm : m ∈ calculate_app_metrics df) :
    ∃ p ∈ df.map (fun r => r.package), m = appMetricFor df p := by
  unfold calculate_app_metrics at hm
  rw [(List.perm_insertionSort _ _).mem_iff] at hm
  obtain ⟨p, hp, rfl⟩ := List.mem_map.mp hm
  exact ⟨p, List.mem_dedup.mp ((List.perm_insertionSort _ _).mem_iff.mp hp), rfl⟩

theorem calculate_app_metrics_length (df : List AggRow) :
    (calculate_app_metrics df).length = (df.map (fun r => r.package)).dedup.length := by
  unfold calculate_app_metrics
  rw [(List.perm_insertionSort _ _).length_eq, List.length_map,
    (List.perm_insertionSort _ _).length_eq]

theorem calculate_app_metrics_eq_nil (df : List AggRow) :
    calculate_app_metrics df = [] ↔ df = [] := by
  constructor
  · intro h
    have hlen := calculate_app_metrics_length df
    rw [h] at hlen
    have : (df.map (fun r => r.package)).dedup = [] :=
      List.length_eq_zero.mp hlen.symm
    have := (List.dedup_eq_nil _).mp this
    exact List.map_eq_nil_iff.mp this
  · intro h; subst h; rfl

/-- Claim C1: `calculate_app_metrics` groups rows by package and, for
each package present, returns reach = number of distinct hardware_id
values of the group, total_time = (sum of total_time_in_foreground)/3600,
avg_time_per_session = (mean of total_time_in_foreground)/3600, and
avg_time_per_device = ((sum)/(reach))/3600, each derived time rounded to
2 decimal places (the mean and the per-device average are asserted where
they are defined, i.e. on a group with at least one parsed duration
resp. with nonzero reach). -/
theorem claim_C1 (df : List AggRow) (p : String)
    (hp : p ∈ df.map (fun r => r.package)) :
    ∃ m ∈ calculate_app_metrics df,
      m.package = p ∧
      m.reach = (hwList (groupRows df p)).dedup.length ∧
      m.total_time = round2 (listSum (timesList (groupRows df p)) / 3600) ∧
      ((timesList (groupRows df p)).length ≠ 0 →
        m.avg_time_per_session =
          PFloat.fin (round2 (listSum (timesList (groupRows df p)) /
            ((timesList (groupRows df p)).length : ℚ) / 3600))) ∧
      ((hwList (groupRows df p)).dedup.length ≠ 0 →
        m.avg_time_per_device =
          PFloat.fin (round2 (listSum (timesList (groupRows df p)) /
            (((hwList (groupRows df p)).dedup.length : ℕ) : ℚ) / 3600))) := by
  refine ⟨appMetricFor df p, mem_calculate_app_metrics df p hp, rfl, rfl, rfl, ?_, ?_⟩
  · intro h
    simp only [appMetricFor, if_neg h, PFloat.divBy3600, PFloat.round2P]
  · intro h
    simp only [appMetricFor, pdivByNat, if_neg h, PFloat.divBy3600, PFloat.round2P]

/-- Witness for C1 at the spec's two-row example: reach 2, total_time
3.0 h, avg_time_per_session 1.5 h, avg_time_per_device 1.5 h. -/
theorem claim_C1_witness :
    ∃ m ∈ calculate_app_metrics dfEx,
      m.package = "A" ∧ m.reach = 2 ∧ m.total_time = 3 ∧
      m.avg_time_per_session = PFloat.fin (3 / 2) ∧
      m.avg_time_per_device = PFloat.fin (3 / 2) := by
  obtain ⟨m, hm, h1, h2, h3, h4, h5⟩ := claim_C1 dfEx "A" (by decide)
  refine ⟨m, hm, h1, ?_, ?_, ?_, ?_⟩
  · rw [h2]; decide
  · rw [h3]
    norm_num +decide [dfEx, groupRows, timesList, listSum, round2, roundHalfEven,
      List.filter_cons, List.filterMap_cons]
  · rw [h4 (by decide)]
    norm_num +decide [dfEx, groupRows, timesList, listSum, round2, roundHalfEven,
      List.filter_cons, List.filterMap_cons]
  · rw [h5 (by decide)]
    norm_num +decide [dfEx, groupRows, timesList, hwList, listSum, round2, roundHalfEven,
      List.filter_cons, List.filterMap_cons, List.dedup_cons_of_not_mem]

/-- Claim C2: a package all of whose rows have a missing hardware_id gets
reach = 0, and its avg_time_per_device is the result of the division by
zero: a non-finite float (infinity or NaN), with no special-casing. -/
theorem claim_C2 (df : List AggRow) (p : String)
    (hp : p ∈ df.map (fun r => r.package))
    (hmiss : ∀ r ∈ df, r.package = p → r.hardware_id = none) :
    ∃ m ∈ calculate_app_metrics df,
      m.package = p ∧ m.reach = 0 ∧ m.avg_time_per_device.isFinite = false := by
  refine ⟨appMetricFor df p, mem_calculate_app_metrics df p hp, rfl, ?_, ?_⟩
  all_goals
    have hnil : hwList (groupRows df p) = [] := by
      apply List.filterMap_eq_nil_iff.mpr
      intro r hr
      have := List.mem_filter.mp hr
      exact hmiss r this.1 (by simpa using this.2)
  · simp [appMetricFor, hnil]
  · simp only [appMetricFor, hnil, pdivByNat, List.dedup_nil, List.length_nil]
    split_ifs <;> rfl

/-- Witness for C2: the one-row table whose row has package "A", missing
hardware_id, and 3600 seconds of foreground time. -/
theorem claim_C2_witness :
    ∃ m ∈ calculate_app_metrics dfC2,
      m.package = "A" ∧ m.reach = 0 ∧ m.avg_time_per_device.isFinite = false :=
  claim_C2 dfC2 "A" (by decide) (by decide)

theorem fetch_fail_result (debug : Bool) (o : HttpOutcome) (h : fetchFails o) :
    (fetch_data debug o).2 = none ∧
      ∃ m, UiEvent.errorMsg m ∈ (fetch_data debug o).1 := by
  cases o with
  | transportError msg =>
    exact ⟨rfl, "Error: " ++ msg, List.mem_singleton.mpr rfl⟩
  | ok r =>
    by_cases hst : 400 ≤ r.status ∧ r.status < 600
    · have hr : fetchResult r = ([UiEvent.errorMsg "Error: HTTPError"], none) := by
        simp [fetchResult, if_pos hst]
      constructor
      · show (fetchResult r).2 = none
        rw [hr]
      · refine ⟨"Error: HTTPError", ?_⟩
        show _ ∈ debugEvents debug r ++ (fetchResult r).1
        rw [hr]
        exact List.mem_append_right _ (List.mem_singleton.mpr rfl)
    · have hp : parseAndCoerce r.text = none := by
        rcases h with h | h
        · exact absurd h hst
        · exact h
      have hr : fetchResult r = ([UiEvent.errorMsg "Error: ParseError"], none) := by
        simp [fetchResult, if_neg hst, hp]
      constructor
      · show (fetchResult r).2 = none
        rw [hr]
      · refine ⟨"Error: ParseError", ?_⟩
        show _ ∈ debugEvents debug r ++ (fetchResult r).1
        rw [hr]
        exact List.mem_append_right _ (List.mem_singleton.mpr rfl)

/-- Claim C4: every failing fetch — transport failure, 4xx/5xx status,
or a body that does not parse — reports an error and returns no table;
`fetch_data` is a total function, so no exception escapes to the caller. -/
theorem claim_C4 (debug : Bool) (o : HttpOutcome) (h : fetchFails o) :
    (fetch_data debug o).2 = none ∧
      ∃ m, UiEvent.errorMsg m ∈ (fetch_data debug o).1 :=
  fetch_fail_result debug o h

/-- Witness for C4 at a concrete transport failure. -/
theorem claim_C4_witness :
    (fetch_data false (HttpOutcome.transportError "connection refused")).2 = none ∧
      ∃ m, UiEvent.errorMsg m ∈
        (fetch_data false (HttpOutcome.transportError "connection refused")).1 :=
  claim_C4 false (HttpOutcome.transportError "connection refused") trivial

/-- Claim C9: two fetches that see the same HTTP outcome and differ only
in the debug flag return the same table — the debug output is diagnostic
only. -/
theorem claim_C9 (d1 d2 : Bool) (o : HttpOutcome) :
    (fetch_data d1 o).2 = (fetch_data d2 o).2 := by
  cases o <;> rfl

/-- Claim C3: when the fetch fails, the Load Data handler leaves the held
table exactly as it was and reports a failure message instead of
raising. -/
theorem claim_C3 (st : SessionState) (o : HttpOutcome) (h : fetchFails o) :
    ((loadData st o).1).df = st.df ∧
      ∃ m, UiEvent.errorMsg m ∈ (loadData st o).2 := by
  obtain ⟨h2, -⟩ := fetch_fail_result st.debug_mode o h
  simp only [loadData, h2]
  refine ⟨by trivial, "Failed to load data",
    List.mem_append_right _ (List.mem_singleton.mpr rfl)⟩

/-- Witness for C3: a session holding one record, hit by a transport
failure; the held table survives and a failure is reported. -/
theorem claim_C3_witness :
    ((loadData stHeld (HttpOutcome.transportError "timeout")).1).df = stHeld.df ∧
      ∃ m, UiEvent.errorMsg m ∈ (loadData stHeld (HttpOutcome.transportError "timeout")).2 :=
  claim_C3 stHeld (HttpOutcome.transportError "timeout") trivial

/-- Claim C10: a fetch that succeeds but yields an empty table is handled
exactly like a failed fetch: the handler emits "Failed to load data",
clears only the loaded flag, and leaves the held table untouched. -/
theorem claim_C10 (st : SessionState) (o : HttpOutcome) (ev : List UiEvent)
    (h : fetch_data st.debug_mode o = (ev, some [])) :
    loadData st o =
      ({ st with data_loaded := false }, ev ++ [UiEvent.errorMsg "Failed to load data"]) := by
  simp [loadData, h]

set_option maxRecDepth 100000 in
/-- Witness for C10: a 200 response with a header-only body parses to an
empty table, and the handler reports a load failure and keeps the held
table. -/
theorem claim_C10_witness :
    loadData stHeld (HttpOutcome.ok respEmptyTable) =
      ({ stHeld with data_loaded := false },
        [] ++ [UiEvent.errorMsg "Failed to load data"]) :=
  claim_C10 stHeld (HttpOutcome.ok respEmptyTable) [] (by decide)

theorem displayedMetrics_ok_iff (metrics : List AppMetric) (search : String)
    (rx : RegexOutcome) (key : MetricKey) :
    (∃ d, displayedMetrics metrics search rx key = Except.ok d) ↔
      (search = "" ∨ rx.compiles = true) := by
  by_cases hs : search = ""
  · simp only [displayedMetrics, if_pos hs]
    exact ⟨fun _ => Or.inl hs, fun _ => ⟨_, rfl⟩⟩
  · simp only [displayedMetrics, if_neg hs]
    cases rx with
    | reError msg =>
      constructor
      · rintro ⟨d, hd⟩
        exact Except.noConfusion hd
      · rintro (h | h)
        · exact absurd h hs
        · exact absurd h (by simp [RegexOutcome.compiles])
    | matcher f => exact ⟨fun _ => Or.inr rfl, fun _ => ⟨_, rfl⟩⟩

theorem renderDashboard_error_of_nil (cutoff : ℕ) (df : List UsageRecord)
    (selP selB : List String) (search : String) (rx : RegexOutcome) (key : MetricKey)
    (h : filterRows df selP selB = []) :
    ∃ e, renderDashboard cutoff df selP selB search rx key = Except.error e := by
  simp only [renderDashboard, h, List.map_nil]
  cases hD : displayedMetrics (calculate_app_metrics []) search rx key with
  | error e => exact ⟨e, rfl⟩
  | ok d =>
    exact ⟨"IndexError: single positional indexer is out-of-bounds", rfl⟩

theorem renderDashboard_error_of_regex (cutoff : ℕ) (df : List UsageRecord)
    (selP selB : List String) (search : String) (msg : String) (key : MetricKey)
    (hs : search ≠ "") :
    renderDashboard cutoff df selP selB search (RegexOutcome.reError msg) key =
      Except.error ("re.error: " ++ msg) := by
  have hD : displayedMetrics
      (calculate_app_metrics ((filterRows df selP selB).map toAggRow)) search
      (RegexOutcome.reError msg) key = Except.error ("re.error: " ++ msg) := by
    simp [displayedMetrics, hs]
  simp only [renderDashboard, hD]

theorem renderDashboard_completes (cutoff : ℕ) (df : List UsageRecord)
    (selP selB : List String) (search : String) (rx : RegexOutcome) (key : MetricKey)
    (h1 : filterRows df selP selB ≠ []) (h2 : search = "" ∨ rx.compiles = true) :
    ∃ v, renderDashboard cutoff df selP selB search rx key = Except.ok v := by
  obtain ⟨d, hD⟩ := (displayedMetrics_ok_iff
    (calculate_app_metrics ((filterRows df selP selB).map toAggRow)) search rx key).mpr h2
  have hm : calculate_app_metrics ((filterRows df selP selB).map toAggRow) ≠ [] := by
    intro h0
    exact h1 (List.map_eq_nil_iff.mp ((calculate_app_metrics_eq_nil _).mp h0))
  cases hM : calculate_app_metrics ((filterRows df selP selB).map toAggRow) with
  | nil => exact absurd hM hm
  | cons m0 rest =>
    simp only [renderDashboard]
    rw [hD, hM]
    exact ⟨_, rfl⟩

/-- Claim C8 (amended): the dashboard body completes without an unhandled
fault exactly when the partner/brand selection leaves at least one
matching row and, when the search box is nonempty, its term compiles as
a regular expression.  A zero-row selection reaches the Quick Insights
first-row access (`iloc[0]`) and raises an unhandled IndexError; a
nonempty search term whose regex compilation fails raises an unhandled
`re.error` at the `str.contains` filter. -/
theorem claim_C8_amended (cutoff : ℕ) (df : List UsageRecord)
    (selP selB : List String) (search : String) (rx : RegexOutcome) (key : MetricKey) :
    (∃ v, renderDashboard cutoff df selP selB search rx key = Except.ok v) ↔
      (filterRows df selP selB ≠ [] ∧ (search = "" ∨ rx.compiles = true)) := by
  constructor
  · rintro ⟨v, hv⟩
    refine ⟨?_, ?_⟩
    · intro hnil
      obtain ⟨e, he⟩ :=
        renderDashboard_error_of_nil cutoff df selP selB search rx key hnil
      rw [he] at hv
      exact Except.noConfusion hv
    · by_contra hcon
      push_neg at hcon
      obtain ⟨hs, hc⟩ := hcon
      cases rx with
      | matcher f => exact hc rfl
      | reError msg =>
        rw [renderDashboard_error_of_regex cutoff df selP selB search msg key hs] at hv
        exact Except.noConfusion hv
  · rintro ⟨h1, h2⟩
    exact renderDashboard_completes cutoff df selP selB search rx key h1 h2

/-- Counterexample for C8 as stated: with one loaded record and an empty
partner/brand selection (and the default empty search box) the body
faults at the Quick Insights `iloc[0]`. -/
theorem claim_C8_counterexample :
    renderDashboard 0 [recEx] [] [] "" (literalMatcher "") MetricKey.reachKey =
      Except.error "IndexError: single positional indexer is out-of-bounds" := rfl

theorem dedup_length_le_of_sublist {α : Type} [DecidableEq α] {l1 l2 : List α}
    (h : List.Sublist l1 l2) : l1.dedup.length ≤ l2.dedup.length := by
  rw [← List.card_toFinset, ← List.card_toFinset]
  apply Finset.card_le_card
  intro x hx
  exact List.mem_toFinset.mpr (h.subset (List.mem_toFinset.mp hx))

/-- Claim C6: filtering the table to any partner/brand selection and
re-aggregating gives every remaining package a reach no larger than its
reach in the unfiltered aggregation. -/
theorem claim_C6 (df : List UsageRecord) (selP selB : List String) (m : AppMetric)
    (hm : m ∈ calculate_app_metrics ((filterRows df selP selB).map toAggRow)) :
    ∃ mu ∈ calculate_app_metrics (df.map toAggRow),
      mu.package = m.package ∧ m.reach ≤ mu.reach := by
  obtain ⟨p, hp, rfl⟩ := calculate_app_metrics_sound _ m hm
  have hpu : p ∈ (df.map toAggRow).map (fun r => r.package) := by
    obtain ⟨r, hr, rfl⟩ := List.mem_map.mp hp
    obtain ⟨u, hu, rfl⟩ := List.mem_map.mp hr
    exact List.mem_map_of_mem _ (List.mem_map_of_mem _ (List.mem_filter.mp hu).1)
  refine ⟨appMetricFor (df.map toAggRow) p, mem_calculate_app_metrics _ p hpu, rfl, ?_⟩
  exact dedup_length_le_of_sublist
    (List.Sublist.filterMap _
      (List.Sublist.filter _ (List.Sublist.map _ (List.filter_sublist df))))

/-- Witness for C6: package "A" has reach 1 after filtering to partner
"P" and reach at least 1 in the unfiltered aggregation. -/
theorem claim_C6_witness :
    ∃ mu ∈ calculate_app_metrics (dfC6.map toAggRow),
      mu.package = mC6.package ∧ mC6.reach ≤ mu.reach :=
  claim_C6 dfC6 ["P"] ["B"] mC6 (by
    norm_num +decide [mC6, dfC6, recEx, recEx2, filterRows, toAggRow,
      calculate_app_metrics, appMetricFor, groupRows, hwList, timesList, listSum,
      round2, roundHalfEven, pdivByNat, PFloat.divBy3600, PFloat.round2P, lexLe,
      List.insertionSort, List.orderedInsert, List.filter_cons, List.filterMap_cons,
      List.foldr_cons, List.map_cons])

theorem fetch_data_ok_inv (debug : Bool) (r : HttpResponse) (ev : List UiEvent)
    (df : List UsageRecord)
    (h : fetch_data debug (HttpOutcome.ok r) = (ev, some df)) :
    parseAndCoerce r.text = some df := by
  have h2 : (fetchResult r).2 = some df := congrArg Prod.snd h
  unfold fetchResult at h2
  by_cases hst : 400 ≤ r.status ∧ r.status < 600
  · rw [if_pos hst] at h2
    exact absurd h2 (by simp)
  · rw [if_neg hst] at h2
    cases hp : parseAndCoerce r.text with
    | none => rw [hp] at h2; exact absurd h2 (by simp)
    | some df2 => rw [hp] at h2; exact h2

theorem coerceTable_inv (t : RawTable) (df : List UsageRecord)
    (h : coerceTable t = some df) :
    ∃ ix, colIdxAll t.header = some ix ∧ df = t.rows.map (buildRecord ix) := by
  unfold coerceTable at h
  cases hix : colIdxAll t.header with
  | none => rw [hix] at h; exact absurd h (by simp)
  | some ix => rw [hix] at h; exact ⟨ix, rfl, (Option.some.inj h).symm⟩

theorem colIdxAll_ttif (hdr : List (List Char)) (ix : ColIdx)
    (h : colIdxAll hdr = some ix) :
    findIdxOf "total_time_in_foreground".data hdr = some ix.iTotalTimeInFg := by
  unfold colIdxAll at h
  rw [Option.bind_eq_bind] at h
  obtain ⟨a1, h1, h⟩ := Option.bind_eq_some.mp h
  obtain ⟨a2, h2, h⟩ := Option.bind_eq_some.mp h
  obtain ⟨a3, h3, h⟩ := Option.bind_eq_some.mp h
  obtain ⟨a4, h4, h⟩ := Option.bind_eq_some.mp h
  obtain ⟨a5, h5, h⟩ := Option.bind_eq_some.mp h
  obtain ⟨a6, h6, h⟩ := Option.bind_eq_some.mp h
  obtain ⟨a7, h7, h⟩ := Option.bind_eq_some.mp h
  obtain ⟨a8, h8, h⟩ := Option.bind_eq_some.mp h
  obtain ⟨a9, h9, h⟩ := Option.bind_eq_some.mp h
  obtain ⟨a10, h10, h⟩ := Option.bind_eq_some.mp h
  obtain ⟨a11, h11, h⟩ := Option.bind_eq_some.mp h
  obtain ⟨a12, h12, h⟩ := Option.bind_eq_some.mp h
  obtain ⟨a13, h13, h⟩ := Option.bind_eq_some.mp h
  obtain ⟨a14, h14, h⟩ := Option.bind_eq_some.mp h
  obtain ⟨a15, h15, h⟩ := Option.bind_eq_some.mp h
  obtain ⟨a16, h16, h⟩ := Option.bind_eq_some.mp h
  cases Option.some.inj h
  exact h10

theorem filterMap_filter_eraseIdx {α β : Type} (f : α → Option β) (q : α → Bool)
    (l : List α) (i : ℕ) (hi : i < l.length) (h : f (l.get ⟨i, hi⟩) = none) :
    (l.filter q).filterMap f = ((l.eraseIdx i).filter q).filterMap f := by
  induction l generalizing i with
  | nil => simp at hi
  | cons a tl ih =>
    cases i with
    | zero =>
      simp only [List.eraseIdx]
      by_cases hq : q a
      · simp only [List.filter_cons, hq, if_pos trivial, List.filterMap_cons]
        rw [show f a = none from h]
      · simp [List.filter_cons, hq]
    | succ n =>
      have hn : n < tl.length := by simpa using hi
      have h' : f (tl.get ⟨n, hn⟩) = none := h
      simp only [List.eraseIdx]
      by_cases hq : q a
      · simp only [List.filter_cons, hq, if_pos trivial, List.filterMap_cons]
        rw [ih n hn h']
      · simp only [List.filter_cons, hq]
        exact ih n hn h'

/-- Claim C5: when the response parses but one row's
`total_time_in_foreground` cell is not numeric, the row is retained with
the duration missing; the missing value is excluded from the package's
sum/mean inputs (they equal those of the table without the row), while
the row's hardware_id still counts toward the package's reach. -/
theorem claim_C5 (debug : Bool) (resp : HttpResponse) (ev : List UiEvent)
    (df : List UsageRecord) (t : RawTable) (i j : ℕ)
    (hf : fetch_data debug (HttpOutcome.ok resp) = (ev, some df))
    (ht : parseCSVChars resp.text.data = some t)
    (hj : findIdxOf "total_time_in_foreground".data t.header = some j)
    (hi : i < t.rows.length)
    (hbad : parseNum (cellAt (t.rows.get ⟨i, hi⟩) j) = none) :
    df.length = t.rows.length ∧
    ∃ hi2 : i < df.length,
      (df.get ⟨i, hi2⟩).total_time_in_foreground = none ∧
      timesList (groupRows (df.map toAggRow) ((df.get ⟨i, hi2⟩).package)) =
        timesList (groupRows ((df.map toAggRow).eraseIdx i)
          ((df.get ⟨i, hi2⟩).package)) ∧
      (df.get ⟨i, hi2⟩).hardware_id ∈
        hwList (groupRows (df.map toAggRow) ((df.get ⟨i, hi2⟩).package)) := by
  have hpc := fetch_data_ok_inv debug resp ev df hf
  unfold parseAndCoerce at hpc
  rw [ht] at hpc
  obtain ⟨ix, hix, hdf⟩ := coerceTable_inv t df (by simpa using hpc)
  subst hdf
  have hj10 := colIdxAll_ttif t.header ix hix
  have hjj : j = ix.iTotalTimeInFg := by
    rw [hj] at hj10
    exact Option.some.inj hj10
  subst hjj
  have hi2 : i < (t.rows.map (buildRecord ix)).length := by
    rw [List.length_map]; exact hi
  have hget : (t.rows.map (buildRecord ix)).get ⟨i, hi2⟩ =
      buildRecord ix (t.rows.get ⟨i, hi⟩) := by
    simp [List.get_eq_getElem, List.getElem_map]
  refine ⟨List.length_map _ _, hi2, ?_, ?_, ?_⟩
  · rw [hget]
    exact hbad
  · apply filterMap_filter_eraseIdx
      (fun r : AggRow => r.total_time_in_foreground) _ _ i
      (by rw [List.length_map, List.length_map]; exact hi)
    simp only [List.get_eq_getElem, List.getElem_map]
    exact hbad
  · apply List.mem_filterMap.mpr
    refine ⟨toAggRow ((t.rows.map (buildRecord ix)).get ⟨i, hi2⟩), ?_, rfl⟩
    apply List.mem_filter.mpr
    refine ⟨List.mem_map_of_mem _ (List.get_mem _ _ _), ?_⟩
    simp [toAggRow]

set_option maxRecDepth 1000000 in
/-- Witness for C5: the malformed row of `respC5` is retained with the
duration missing; it contributes nothing to the sum/mean inputs and its
device "D1" still counts toward reach. -/
theorem claim_C5_witness :
    dfC5.length = tC5.rows.length ∧
    ∃ hi2 : 0 < dfC5.length,
      (dfC5.get ⟨0, hi2⟩).total_time_in_foreground = none ∧
      timesList (groupRows (dfC5.map toAggRow) ((dfC5.get ⟨0, hi2⟩).package)) =
        timesList (groupRows ((dfC5.map toAggRow).eraseIdx 0)
          ((dfC5.get ⟨0, hi2⟩).package)) ∧
      (dfC5.get ⟨0, hi2⟩).hardware_id ∈
        hwList (groupRows (dfC5.map toAggRow) ((dfC5.get ⟨0, hi2⟩).package)) :=
  claim_C5 false respC5 [] dfC5 tC5 0 9 (by decide) (by decide) (by decide)
    (by decide) (by decide)

theorem charDigit_digitChar (d : ℕ) (h : d < 10) : charDigit (digitChar d) = some d := by
  interval_cases d <;> rfl

theorem readDigits_map_digitChar (ds : List ℕ) (h : ∀ d ∈ ds, d < 10) :
    readDigits (ds.map digitChar) = some ds := by
  induction ds with
  | nil => rfl
  | cons d ds ih =>
    simp only [List.map_cons, readDigits]
    rw [charDigit_digitChar d (h d (by simp)), ih (fun x hx => h x (by simp [hx]))]
    rfl

theorem parseNatChars_of_ne_nil (l : List Char) (h : l ≠ []) :
    parseNatChars l = (readDigits l).map (fun ds => Nat.ofDigits 10 ds.reverse) := by
  cases l with
  | nil => exact absurd rfl h
  | cons c cs => rfl

theorem natCharsNZ_ne_nil (n : ℕ) : natCharsNZ n ≠ [] := by
  by_cases h : n = 0
  · simp [natCharsNZ, h]
  · simp only [natCharsNZ, if_neg h, natChars]
    simp only [ne_eq, List.map_eq_nil_iff, List.reverse_eq_nil_iff]
    exact Nat.digits_ne_nil_iff_ne_zero.mpr h

theorem parseNatChars_natCharsNZ (n : ℕ) : parseNatChars (natCharsNZ n) = some n := by
  by_cases h : n = 0
  · subst h; rfl
  · rw [show natCharsNZ n = natChars n from if_neg h]
    have hne : natChars n ≠ [] := by
      have := natCharsNZ_ne_nil n
      rwa [show natCharsNZ n = natChars n from if_neg h] at this
    rw [parseNatChars_of_ne_nil _ hne]
    unfold natChars
    rw [readDigits_map_digitChar _
      (fun d hd => Nat.digits_lt_base (by norm_num) (List.mem_reverse.mp hd))]
    simp [Nat.ofDigits_digits]

theorem parseNatChars_single (d : ℕ) (h : d < 10) :
    parseNatChars [digitChar d] = some d := by
  rw [parseNatChars_of_ne_nil _ (by simp)]
  rw [show [digitChar d] = [d].map digitChar from rfl,
    readDigits_map_digitChar [d] (by simpa using h)]
  simp [Nat.ofDigits]

theorem parseNatChars_two (d e : ℕ) (hd : d < 10) (he : e < 10) :
    parseNatChars [digitChar d, digitChar e] = some (10 * d + e) := by
  rw [parseNatChars_of_ne_nil _ (by simp)]
  rw [show [digitChar d, digitChar e] = [d, e].map digitChar from rfl,
    readDigits_map_digitChar [d, e] (by
      intro x hx
      rcases List.mem_cons.mp hx with rfl | hx
      · exact hd
      · rcases List.mem_cons.mp hx with rfl | hx
        · exact he
        · simp at hx)]
  simp [Nat.ofDigits]
  ring

theorem charDigit_isSome_of_mem_natChars {c : Char} {n : ℕ} (h : c ∈ natChars n) :
    (charDigit c).isSome = true := by
  obtain ⟨d, hd, rfl⟩ := List.mem_map.mp h
  have hd10 : d < 10 := Nat.digits_lt_base (by norm_num) (List.mem_reverse.mp hd)
  rw [charDigit_digitChar d hd10]
  rfl

theorem charDigit_isSome_of_mem_natCharsNZ {c : Char} {n : ℕ} (h : c ∈ natCharsNZ n) :
    (charDigit c).isSome = true := by
  by_cases h0 : n = 0
  · subst h0
    simp only [natCharsNZ, if_pos, List.mem_singleton] at h
    subst h
    rfl
  · exact charDigit_isSome_of_mem_natChars (by rwa [natCharsNZ, if_neg h0] at h)

theorem charDigit_isSome_of_mem_fracChars {c : Char} {fp : ℕ} (hfp : fp < 100)
    (h : c ∈ fracChars fp) : (charDigit c).isSome = true := by
  unfold fracChars at h
  split_ifs at h with h1 h2
  · simp only [List.mem_singleton] at h
    subst h
    rfl
  · simp only [List.mem_singleton] at h
    subst h
    rw [charDigit_digitChar _ (by omega)]
    rfl
  · rcases List.mem_cons.mp h with rfl | h
    · rw [charDigit_digitChar _ (by omega)]
      rfl
    · rcases List.mem_cons.mp h with rfl | h
      · rw [charDigit_digitChar _ (by omega)]
        rfl
      · simp at h

theorem ne_of_digit {c x : Char} (h : (charDigit c).isSome = true)
    (hx : charDigit x = none) : c ≠ x := by
  intro he
  rw [he, hx] at h
  simp at h

theorem takeWhile_append_cons {α : Type} (p : α → Bool) (A : List α) (x : α) (B : List α)
    (hA : ∀ a ∈ A, p a = true) (hx : p x = false) :
    (A ++ x :: B).takeWhile p = A ∧ (A ++ x :: B).dropWhile p = x :: B := by
  induction A with
  | nil => simp [List.takeWhile_cons, List.dropWhile_cons, hx]
  | cons a A ih =>
    have hpa := hA a (by simp)
    have hrec := ih (fun y hy => hA y (by simp [hy]))
    simp [List.takeWhile_cons, List.dropWhile_cons, hpa, hrec.1, hrec.2]

theorem takeWhile_all {α : Type} (p : α → Bool) (A : List α)
    (hA : ∀ a ∈ A, p a = true) :
    A.takeWhile p = A ∧ A.dropWhile p = [] := by
  induction A with
  | nil => simp
  | cons a A ih =>
    have hpa := hA a (by simp)
    have hrec := ih (fun y hy => hA y (by simp [hy]))
    simp [List.takeWhile_cons, List.dropWhile_cons, hpa, hrec.1, hrec.2]

theorem splitNumParts_centi (A B : List Char) (hA : ∀ a ∈ A, a ≠ '.') :
    splitNumParts (A ++ '.' :: B) = (A, '.' :: B) := by
  unfold splitNumParts
  have := takeWhile_append_cons (fun c : Char => decide (c ≠ '.')) A '.' B
    (fun a ha => by simpa using hA a ha) (by simp)
  rw [this.1, this.2]


theorem parseUnsigned_centi (m : ℕ) :
    parseUnsigned (natCharsNZ (m / 100) ++ '.' :: fracChars (m % 100)) =
      some ((m : ℚ) / 100) := by
  have hfp : m % 100 < 100 := Nat.mod_lt _ (by norm_num)
  have hsp : splitNumParts (natCharsNZ (m / 100) ++ '.' :: fracChars (m % 100)) =
      (natCharsNZ (m / 100), '.' :: fracChars (m % 100)) :=
    splitNumParts_centi _ _
      (fun a ha => ne_of_digit (charDigit_isSome_of_mem_natCharsNZ ha) rfl)
  have hip := parseNatChars_natCharsNZ (m / 100)
  by_cases h0 : m % 100 = 0
  · have hfc : fracChars (m % 100) = ['0'] := by rw [h0]; rfl
    rw [hfc] at hsp ⊢
    simp only [parseUnsigned, hsp, hip, show parseNatChars ['0'] = some 0 from rfl,
      Option.bind_eq_bind, Option.some_bind, Option.pure_def, Option.map_some',
      List.length_singleton]
    congr 1
    have hm : (m : ℚ) = 100 * ((m / 100 : ℕ) : ℚ) := by
      exact_mod_cast (by omega : m = 100 * (m / 100))
    rw [hm]
    push_cast
    ring
  · by_cases h1 : m % 100 % 10 = 0
    · have hfc : fracChars (m % 100) = [digitChar (m % 100 / 10)] := by
        unfold fracChars
        rw [if_neg h0, if_pos h1]
      rw [hfc] at hsp ⊢
      simp only [parseUnsigned, hsp, hip, parseNatChars_single _ (by omega : m % 100 / 10 < 10),
        Option.bind_eq_bind, Option.some_bind, Option.pure_def, Option.map_some',
        List.length_singleton]
      congr 1
      have hm : (m : ℚ) = 100 * ((m / 100 : ℕ) : ℚ) + 10 * ((m % 100 / 10 : ℕ) : ℚ) := by
        exact_mod_cast (by omega : m = 100 * (m / 100) + 10 * (m % 100 / 10))
      rw [hm]
      ring
    · have hfc : fracChars (m % 100) =
          [digitChar (m % 100 / 10), digitChar (m % 100 % 10)] := by
        unfold fracChars
        rw [if_neg h0, if_neg h1]
      rw [hfc] at hsp ⊢
      simp only [parseUnsigned, hsp, hip,
        parseNatChars_two _ _ (by omega : m % 100 / 10 < 10) (by omega : m % 100 % 10 < 10),
        Option.bind_eq_bind, Option.some_bind, Option.pure_def, Option.map_some',
        List.length_cons, List.length_singleton, List.length_nil, pow_zero, pow_one]
      congr 1
      have hm : (m : ℚ) = 100 * ((m / 100 : ℕ) : ℚ) +
          ((10 * (m % 100 / 10) + m % 100 % 10 : ℕ) : ℚ) := by
        exact_mod_cast (by omega : m = 100 * (m / 100) + (10 * (m % 100 / 10) + m % 100 % 10))
      rw [hm]
      push_cast
      ring

theorem parseNum_of_head_digit (c : Char) (cs : List Char)
    (hc : (charDigit c).isSome = true) :
    parseNum (c :: cs) = parseUnsigned (c :: cs) := by
  have h1 : c ≠ '-' := ne_of_digit hc rfl
  have h2 : c ≠ '+' := ne_of_digit hc rfl
  unfold parseNum
  split
  · rename_i heq
    exact absurd (List.cons.inj heq).1 h1
  · rename_i heq
    exact absurd (List.cons.inj heq).1 h2
  · rfl

theorem parseNum_writeQ2 (q : ℚ) (h : (q * 100).den = 1) :
    parseNum (writeQ2 q) = some q := by
  have hnum : (((q * 100).num : ℚ)) = q * 100 := (Rat.den_eq_one_iff _).mp h
  by_cases hneg : q < 0
  · have hq100 : q * 100 < 0 := by nlinarith
    have hn0 : (q * 100).num < 0 := by
      by_contra hcon
      push_neg at hcon
      have : (0 : ℚ) ≤ q * 100 := Rat.num_nonneg.mp hcon
      linarith
    have hmq : (((q * 100).num.natAbs : ℕ) : ℚ) = -(q * 100) := by
      have h3 : ((q * 100).num.natAbs : ℤ) = -(q * 100).num :=
        Int.ofNat_natAbs_of_nonpos (le_of_lt hn0)
      calc (((q * 100).num.natAbs : ℕ) : ℚ)
          = (((q * 100).num.natAbs : ℤ) : ℚ) := (Int.cast_natCast _).symm
        _ = ((-(q * 100).num : ℤ) : ℚ) := by rw [h3]
        _ = -(((q * 100).num : ℤ) : ℚ) := by rw [Int.cast_neg]
        _ = -(q * 100) := by rw [hnum]
    have hw : writeQ2 q = '-' :: (natCharsNZ ((q * 100).num.natAbs / 100) ++
        '.' :: fracChars ((q * 100).num.natAbs % 100)) := by
      unfold writeQ2
      rw [if_pos hneg]
      rfl
    rw [hw]
    rw [show parseNum ('-' :: (natCharsNZ ((q * 100).num.natAbs / 100) ++
        '.' :: fracChars ((q * 100).num.natAbs % 100))) =
      (parseUnsigned (natCharsNZ ((q * 100).num.natAbs / 100) ++
        '.' :: fracChars ((q * 100).num.natAbs % 100))).map (fun x => -x) from rfl]
    rw [parseUnsigned_centi]
    simp only [Option.map_some']
    congr 1
    rw [hmq]
    ring
  · push_neg at hneg
    have hn0 : 0 ≤ (q * 100).num := Rat.num_nonneg.mpr (by nlinarith)
    have hmq : (((q * 100).num.natAbs : ℕ) : ℚ) = q * 100 := by
      have h3 : ((q * 100).num.natAbs : ℤ) = (q * 100).num := Int.natAbs_of_nonneg hn0
      calc (((q * 100).num.natAbs : ℕ) : ℚ)
          = (((q * 100).num.natAbs : ℤ) : ℚ) := (Int.cast_natCast _).symm
        _ = (((q * 100).num : ℤ) : ℚ) := by rw [h3]
        _ = q * 100 := hnum
    have hw : writeQ2 q = natCharsNZ ((q * 100).num.natAbs / 100) ++
        '.' :: fracChars ((q * 100).num.natAbs % 100) := by
      unfold writeQ2
      rw [if_neg (not_lt.mpr hneg)]
      rfl
    rw [hw]
    obtain ⟨c, cs, hcc⟩ : ∃ c cs, natCharsNZ ((q * 100).num.natAbs / 100) = c :: cs := by
      cases hx : natCharsNZ ((q * 100).num.natAbs / 100) with
      | nil => exact absurd hx (natCharsNZ_ne_nil _)
      | cons c cs => exact ⟨c, cs, rfl⟩
    rw [hcc, List.cons_append]
    rw [parseNum_of_head_digit c _ (charDigit_isSome_of_mem_natCharsNZ
      (by rw [hcc]; exact List.mem_cons_self _ _))]
    rw [← List.cons_append, ← hcc]
    rw [parseUnsigned_centi]
    congr 1
    rw [div_eq_iff (by norm_num : (100 : ℚ) ≠ 0), hmq]

theorem natCharsNZ_head (n : ℕ) :
    ∃ c cs, natCharsNZ n = c :: cs ∧ (charDigit c).isSome = true := by
  cases hx : natCharsNZ n with
  | nil => exact absurd hx (natCharsNZ_ne_nil _)
  | cons c cs =>
    exact ⟨c, cs, rfl, charDigit_isSome_of_mem_natCharsNZ
      (by rw [hx]; exact List.mem_cons_self _ _)⟩

theorem parsePF_writeQ2 (q : ℚ) (h : (q * 100).den = 1) :
    parsePF (writeQ2 q) = PFloat.fin q := by
  obtain ⟨c, cs, hcc, hdig⟩ := natCharsNZ_head ((q * 100).num.natAbs / 100)
  by_cases hneg : q < 0
  · have hw : writeQ2 q = '-' :: (natCharsNZ ((q * 100).num.natAbs / 100) ++
        '.' :: fracChars ((q * 100).num.natAbs % 100)) := by
      unfold writeQ2
      rw [if_pos hneg]
      rfl
    unfold parsePF
    rw [if_neg (by rw [hw]; simp), if_neg (by
        rw [hw, hcc]
        intro he
        have h1 := (List.cons.inj he).1
        exact absurd h1 (by decide)), if_neg (by
        rw [hw, hcc]
        intro he
        have h2 := (List.cons.inj he).2
        have h3 := (List.cons.inj h2).1
        exact absurd h3 (ne_of_digit hdig rfl)),
      parseNum_writeQ2 q h]
  · have hw : writeQ2 q = natCharsNZ ((q * 100).num.natAbs / 100) ++
        '.' :: fracChars ((q * 100).num.natAbs % 100) := by
      unfold writeQ2
      rw [if_neg (not_lt.mpr (not_lt.mp hneg))]
      rfl
    unfold parsePF
    rw [if_neg (by rw [hw, hcc]; simp), if_neg (by
        rw [hw, hcc]
        intro he
        have h1 := (List.cons.inj he).1
        exact absurd h1 (ne_of_digit hdig rfl)), if_neg (by
        rw [hw, hcc]
        intro he
        have h1 := (List.cons.inj he).1
        exact absurd h1 (ne_of_digit hdig rfl)),
      parseNum_writeQ2 q h]

theorem parsePF_writePF (v : PFloat) (h : wellFormedPF v = true) :
    parsePF (writePF v) = v := by
  cases v with
  | fin q =>
    have hden : (q * 100).den = 1 := by
      have h2 : ((q * 100).den == 1) = true := h
      simpa using h2
    exact parsePF_writeQ2 q hden
  | inf => rfl
  | ninf => rfl
  | nan => rfl

theorem mem_joinSep {sep : Char} {c : Char} :
    ∀ {fs : List (List Char)}, c ∈ joinSep sep fs → c = sep ∨ ∃ f ∈ fs, c ∈ f := by
  intro fs
  induction fs with
  | nil => intro h; simp [joinSep] at h
  | cons f gs ih =>
    cases gs with
    | nil =>
      intro h
      exact Or.inr ⟨f, by simp, by simpa [joinSep] using h⟩
    | cons g gs' =>
      intro h
      simp only [joinSep] at h
      rcases List.mem_append.mp h with hf | hrest
      · exact Or.inr ⟨f, by simp, hf⟩
      · rcases List.mem_cons.mp hrest with rfl | htail
        · exact Or.inl rfl
        · rcases ih htail with hc | ⟨f', hf', hcf'⟩
          · exact Or.inl hc
          · exact Or.inr ⟨f', by simp [hf'], hcf'⟩

theorem splitSep_ne_nil (sep : Char) (l : List Char) : splitSep sep l ≠ [] := by
  induction l with
  | nil => simp [splitSep]
  | cons c rest ih =>
    by_cases hc : c = sep
    · simp [splitSep, hc]
    · simp only [splitSep, if_neg hc]
      cases hx : splitSep sep rest with
      | nil => exact absurd hx ih
      | cons f fs => simp

theorem splitSep_append_field (sep : Char) (f rest : List Char)
    (hf : ∀ c ∈ f, c ≠ sep) {g : List Char} {gs : List (List Char)}
    (h : splitSep sep rest = g :: gs) :
    splitSep sep (f ++ rest) = (f ++ g) :: gs := by
  induction f with
  | nil => simpa using h
  | cons a f ih =>
    have ha : a ≠ sep := hf a (by simp)
    have hrec := ih (fun c hc => hf c (by simp [hc]))
    simp only [List.cons_append, splitSep, if_neg ha, List.append_eq]
    rw [hrec]

theorem splitSep_joinSep (sep : Char) (fs : List (List Char)) (hne : fs ≠ [])
    (hsep : ∀ f ∈ fs, ∀ c ∈ f, c ≠ sep) :
    splitSep sep (joinSep sep fs) = fs := by
  induction fs with
  | nil => exact absurd rfl hne
  | cons f gs ih =>
    cases gs with
    | nil =>
      have h0 : splitSep sep ([] : List Char) = [] :: [] := rfl
      have hall := splitSep_append_field sep f [] (hsep f (by simp)) h0
      show splitSep sep f = [f]
      simpa using hall
    | cons g gs' =>
      have hrec := ih (by simp) (fun x hx c hc => hsep x (by simp [hx]) c hc)
      have hstep : splitSep sep (sep :: joinSep sep (g :: gs')) = [] :: g :: gs' := by
        simp [splitSep, hrec]
      have hall := splitSep_append_field sep f _ (hsep f (by simp)) hstep
      have hjoin : joinSep sep (f :: g :: gs') = f ++ sep :: joinSep sep (g :: gs') := rfl
      rw [hjoin, hall, List.append_nil]

theorem mem_writeQ2 {c : Char} {q : ℚ} (h : c ∈ writeQ2 q) :
    (charDigit c).isSome = true ∨ c = '.' ∨ c = '-' := by
  unfold writeQ2 at h
  rcases List.mem_append.mp h with h1 | h2
  · rcases List.mem_append.mp h1 with hs | hn
    · split_ifs at hs
      · simp only [List.mem_singleton] at hs
        exact Or.inr (Or.inr hs)
      · simp at hs
    · exact Or.inl (charDigit_isSome_of_mem_natCharsNZ hn)
  · rcases List.mem_cons.mp h2 with rfl | hf
    · exact Or.inr (Or.inl rfl)
    · exact Or.inl (charDigit_isSome_of_mem_fracChars
        (Nat.mod_lt _ (by norm_num)) hf)

theorem mem_writePF {c : Char} {v : PFloat} (h : c ∈ writePF v) :
    (charDigit c).isSome = true ∨ c = '.' ∨ c = '-' ∨ c = 'i' ∨ c = 'n' ∨ c = 'f' := by
  cases v with
  | fin q =>
    rcases mem_writeQ2 h with h1 | h2 | h3
    · exact Or.inl h1
    · exact Or.inr (Or.inl h2)
    · exact Or.inr (Or.inr (Or.inl h3))
  | inf =>
    have : c ∈ ['i', 'n', 'f'] := h
    fin_cases this
    · exact Or.inr (Or.inr (Or.inr (Or.inl rfl)))
    · exact Or.inr (Or.inr (Or.inr (Or.inr (Or.inl rfl))))
    · exact Or.inr (Or.inr (Or.inr (Or.inr (Or.inr rfl))))
  | ninf =>
    have : c ∈ ['-', 'i', 'n', 'f'] := h
    fin_cases this
    · exact Or.inr (Or.inr (Or.inl rfl))
    · exact Or.inr (Or.inr (Or.inr (Or.inl rfl)))
    · exact Or.inr (Or.inr (Or.inr (Or.inr (Or.inl rfl))))
    · exact Or.inr (Or.inr (Or.inr (Or.inr (Or.inr rfl))))
  | nan => simp [writePF] at h

theorem writePF_not_sep {c : Char} {v : PFloat} (h : c ∈ writePF v) :
    c ≠ ',' ∧ c ≠ '\n' := by
  rcases mem_writePF h with h1 | h2 | h3 | h4 | h5 | h6
  · exact ⟨ne_of_digit h1 rfl, ne_of_digit h1 rfl⟩
  · subst h2; exact ⟨by decide, by decide⟩
  · subst h3; exact ⟨by decide, by decide⟩
  · subst h4; exact ⟨by decide, by decide⟩
  · subst h5; exact ⟨by decide, by decide⟩
  · subst h6; exact ⟨by decide, by decide⟩

theorem writeQ2_not_sep {c : Char} {q : ℚ} (h : c ∈ writeQ2 q) :
    c ≠ ',' ∧ c ≠ '\n' :=
  writePF_not_sep (v := PFloat.fin q) h

theorem natCharsNZ_not_sep {c : Char} {n : ℕ} (h : c ∈ natCharsNZ n) :
    c ≠ ',' ∧ c ≠ '\n' := by
  have h1 := charDigit_isSome_of_mem_natCharsNZ h
  exact ⟨ne_of_digit h1 rfl, ne_of_digit h1 rfl⟩

theorem wellFormedMetric_parts (m : AppMetric) (h : wellFormedMetric m = true) :
    (∀ c ∈ m.package.data, c ≠ ',' ∧ c ≠ '\n') ∧
      (m.total_time * 100).den = 1 ∧
      wellFormedPF m.avg_time_per_session = true ∧
      wellFormedPF m.avg_time_per_device = true := by
  unfold wellFormedMetric at h
  rw [Bool.and_eq_true, Bool.and_eq_true, Bool.and_eq_true] at h
  obtain ⟨⟨⟨hpkg, hden⟩, hs⟩, hd⟩ := h
  refine ⟨?_, by simpa using hden, hs, hd⟩
  intro c hc
  have := List.all_eq_true.mp hpkg c hc
  rw [Bool.and_eq_true] at this
  exact ⟨by simpa using this.1, by simpa using this.2⟩

theorem metricFields_ne_nil (m : AppMetric) : metricFields m ≠ [] := by
  simp [metricFields]

theorem metricFields_no_comma (m : AppMetric) (h : wellFormedMetric m = true) :
    ∀ f ∈ metricFields m, ∀ c ∈ f, c ≠ ',' := by
  obtain ⟨hpkg, -, -, -⟩ := wellFormedMetric_parts m h
  intro f hf c hc
  simp only [metricFields, List.mem_cons, List.mem_singleton] at hf
  rcases hf with rfl | rfl | rfl | rfl | rfl | hfalse
  · exact (hpkg c hc).1
  · exact (natCharsNZ_not_sep hc).1
  · exact (writeQ2_not_sep hc).1
  · exact (writePF_not_sep hc).1
  · exact (writePF_not_sep hc).1
  · simp at hfalse

theorem writeMetricRow_no_newline (m : AppMetric) (h : wellFormedMetric m = true) :
    ∀ c ∈ writeMetricRow m, c ≠ '\n' := by
  obtain ⟨hpkg, -, -, -⟩ := wellFormedMetric_parts m h
  intro c hc
  rcases mem_joinSep hc with rfl | ⟨f, hf, hcf⟩
  · decide
  · simp only [metricFields, List.mem_cons, List.mem_singleton] at hf
    rcases hf with rfl | rfl | rfl | rfl | rfl | hfalse
    · exact (hpkg c hcf).2
    · exact (natCharsNZ_not_sep hcf).2
    · exact (writeQ2_not_sep hcf).2
    · exact (writePF_not_sep hcf).2
    · exact (writePF_not_sep hcf).2
    · simp at hfalse

theorem parseMetricRow_roundtrip (m : AppMetric) (h : wellFormedMetric m = true) :
    parseMetricRow (splitSep ',' (writeMetricRow m)) = some m := by
  obtain ⟨hpkg, hden, hs, hd⟩ := wellFormedMetric_parts m h
  have hsplit : splitSep ',' (writeMetricRow m) = metricFields m :=
    splitSep_joinSep ',' (metricFields m) (metricFields_ne_nil m)
      (metricFields_no_comma m h)
  rw [hsplit]
  unfold parseMetricRow
  simp only [metricFields, parseNatChars_natCharsNZ, parseNum_writeQ2 _ hden,
    parsePF_writePF _ hs, parsePF_writePF _ hd, Option.bind_eq_bind, Option.some_bind]

theorem parseMetricRows_roundtrip (ms : List AppMetric)
    (h : ∀ m ∈ ms, wellFormedMetric m = true) :
    parseMetricRows (ms.map writeMetricRow) = some ms := by
  induction ms with
  | nil => rfl
  | cons m ms ih =>
    simp only [List.map_cons, parseMetricRows]
    rw [parseMetricRow_roundtrip m (h m (by simp)), ih (fun x hx => h x (by simp [hx]))]
    rfl

theorem csvMetricsHeader_no_newline : ∀ c ∈ csvMetricsHeader, c ≠ '\n' := by decide

/-- Claim C7: exporting a well-formed AppMetric table to delimited text
and re-parsing it reproduces the table exactly — in particular the same
package set, reach values, and time values. -/
theorem claim_C7 (ms : List AppMetric) (h : ∀ m ∈ ms, wellFormedMetric m = true) :
    parseMetricsCsv (toCsv ms) = some ms := by
  have hlines : splitSep '\n' (joinSep '\n' (csvMetricsHeader :: ms.map writeMetricRow)) =
      csvMetricsHeader :: ms.map writeMetricRow := by
    apply splitSep_joinSep _ _ (by simp)
    intro f hf c hc
    rcases List.mem_cons.mp hf with rfl | hf
    · exact csvMetricsHeader_no_newline c hc
    · obtain ⟨m, hm, rfl⟩ := List.mem_map.mp hf
      exact writeMetricRow_no_newline m (h m hm) c hc
  unfold toCsv parseMetricsCsv
  have hdata : (String.mk (joinSep '\n' (csvMetricsHeader :: ms.map writeMetricRow) ++
      ['\n'])).data = joinSep '\n' (csvMetricsHeader :: ms.map writeMetricRow) ++ ['\n'] := rfl
  rw [hdata]
  rw [List.getLast?_concat, List.dropLast_concat]
  simp only [eq_self_iff_true, if_true]
  rw [hlines]
  simp only [eq_self_iff_true, if_true]
  exact parseMetricRows_roundtrip ms h

/-- Witness for C7: the concrete table `msC7` survives the export /
re-parse round trip unchanged. -/
theorem claim_C7_witness : parseMetricsCsv (toCsv msC7) = some msC7 :=
  claim_C7 msC7 (by
    intro m hm
    simp only [msC7, List.mem_cons, List.mem_singleton] at hm
    rcases hm with rfl | rfl | hfalse
    · norm_num +decide [wellFormedMetric, wellFormedPF]
    · norm_num +decide [wellFormedMetric, wellFormedPF]
    · simp at hfalse)

theorem round2_mul_100_den (q : ℚ) : (round2 q * 100).den = 1 := by
  unfold round2
  rw [div_mul_cancel₀ _ (by norm_num : (100 : ℚ) ≠ 0)]
  exact Rat.den_intCast _

theorem wellFormedPF_round2P (v : PFloat) : wellFormedPF (PFloat.round2P v) = true := by
  cases v <;> simp [PFloat.round2P, wellFormedPF, round2_mul_100_den]

/-- Every metric row the aggregator produces carries 2-decimal time
values, so a table with separator-free package names satisfies the
well-formedness hypothesis of the export round-trip. -/
theorem calculate_app_metrics_rounded (df : List AggRow) (m : AppMetric)
    (hm : m ∈ calculate_app_metrics df) :
    (m.total_time * 100).den = 1 ∧ wellFormedPF m.avg_time_per_session = true ∧
      wellFormedPF m.avg_time_per_device = true := by
  obtain ⟨p, hp, rfl⟩ := calculate_app_metrics_sound df m hm
  exact ⟨round2_mul_100_den _, wellFormedPF_round2P _, wellFormedPF_round2P _⟩
